import Mathlib

/-!
Shallow embedding of the pyLBL absorption core and verification of its
specification claims.

Sources embedded (idealized real/field arithmetic in place of float64):
 - pyLBL/spectral_lines.py  (brute_force, line_profile, Gas, voigt_profile,
   pressure_shift_transition_wavenumber, temperature_correct_line_strength,
   pressure_broadened_halfwidth, doppler_broadened_halfwidth,
   initial_strength_correction)
 - pyLBL/high_level_api.py  (Spectroscopy.compute_absorption pedestal default)
 - pyLBL/tips.py            (TotalPartitionFunction.total_partition_function)
 - pyLBL/mt_ckd/utils.py    (radiation_term)
 - pyLBL/arts_crossfit/xsec_aux_functions.py (calculate_xsec,
   calculate_xsec_fullmodel)

Numpy array operations are embedded over lists: searchsorted on a sorted
array is the count of elements below the key, scalar indexing follows the
Python convention (negative indices wrap once, anything else out of range is
an error, modelled with Option/Except), and slice assignment clamps.  The
scipy Faddeeva function wofz is external to the repository and enters only
through the real part of its value, so the engine is parameterized by an
arbitrary function wofzRe (and the line-shape evaluation by the induced
voigt profile vp).  The name min in the pedestal line resolves to numpy.min,
because the numpy import of spectral_lines.py shadows the builtin; numpy.min
takes its second positional argument as the reduction axis, and a float
scalar axis raises a TypeError, so the pedestal line never computes a
minimum: after its two scalar reads are evaluated (in source order) the call
raises, modelled as the engine's error value.  Division of two float zeros
in the partition-function interpolation produces NaN (with a warning, not an
exception); a zero interpolation denominator is likewise modelled as a
non-value (an error), since no table entry is returned there.
-/

/-- numpy searchsorted side="left" on a sorted array: number of elements
strictly below the key, i.e. the leftmost insertion index. -/
def searchsorted_left {F : Type*} [LinearOrder F] (a : List F) (key : F) : ℕ :=
  a.countP (fun x => decide (x < key))

/-- numpy searchsorted side="right" on a sorted array: number of elements
at most the key, i.e. the rightmost insertion index. -/
def searchsorted_right {F : Type*} [LinearOrder F] (a : List F) (key : F) : ℕ :=
  a.countP (fun x => decide (x ≤ key))

/-- Python scalar indexing: a negative index wraps once from the end,
indices out of range give none (an IndexError). -/
def pyGet {α : Type*} (l : List α) (i : Int) : Option α :=
  if 0 ≤ i then l.get? i.toNat
  else if 0 ≤ i + l.length then l.get? (i + l.length).toNat else none

/-- Rewrites every element of a list through a position-dependent function,
used to model in-place numpy slice assignment (the first argument is the
index of the head). -/
def applyIdx {α : Type*} (f : ℕ → α → α) : ℕ → List α → List α
  | _, [] => []
  | i, x :: xs => f i x :: applyIdx f (i + 1) xs

/-- In-place update of the slice [lo, hi) of a list, leaving the rest alone. -/
def sliceMod {α : Type*} (lo hi : ℕ) (f : ℕ → α → α) (k : List α) : List α :=
  applyIdx (fun j x => if lo ≤ j ∧ j < hi then f j x else x) 0 k

/-- One line of `brute_force` (pyLBL/spectral_lines.py): a tuple of
pressure-shifted center, temperature-corrected strength, pressure-broadened
halfwidth and doppler-broadened halfwidth. -/
abbrev BruteForceLine (F : Type*) := F × F × F × F

/-- The accumulation statement of the `brute_force` loop body:
`k[left[i]:right[i]] += strength[i]*voigt_profile(dv, gamma[i], alpha[i])`
with `dv = abs(wavenumber[left[i]:right[i]] - center[i])`, for the line
profile function `vp`. -/
def bf_add {F : Type*} [LinearOrderedCommRing F] (vp : F → F → F → F) (w : List F)
    (co : F) (k : List F) (line : BruteForceLine F) : List F :=
  sliceMod (searchsorted_left w (line.1 - co)) (searchsorted_right w (line.1 + co))
    (fun j x => x + line.2.1 * vp |w.getD j 0 - line.1| line.2.2.1 line.2.2.2) k

/-- One iteration of the `brute_force` loop (pyLBL/spectral_lines.py lines
90-98): accumulate the windowed profile of one transition into `k`; when
`remove_pedestal` is set the source then evaluates `k[left[i]]` and
`k[right[i] - 1]` (Python indexing, in source order, so an out-of-range
`k[left[i]]` raises first) and passes both to `min`, which is numpy.min
because the numpy import shadows the builtin: the second scalar is taken as
the reduction axis and the call raises a TypeError, so the pedestal branch
never returns an array. -/
def applyLine {F : Type*} [LinearOrderedCommRing F] (vp : F → F → F → F) (w : List F)
    (rp : Bool) (co : F) (k : List F) (line : BruteForceLine F) :
    Except String (List F) :=
  if rp then
    match (bf_add vp w co k line).get? (searchsorted_left w (line.1 - co)) with
    | none => Except.error "IndexError at k[left[i]]"
    | some _ =>
      match pyGet (bf_add vp w co k line)
          ((searchsorted_right w (line.1 + co) : Int) - 1) with
      | none => Except.error "IndexError at k[right[i] - 1]"
      | some _ =>
        Except.error "TypeError: numpy min takes the second scalar as its axis"
  else Except.ok (bf_add vp w co k line)

/-- Source function `brute_force` (pyLBL/spectral_lines.py): starts from a freshly zeroed
output array and folds every transition's windowed contribution into it. -/
def brute_force {F : Type*} [LinearOrderedCommRing F] (vp : F → F → F → F)
    (wavenumber : List F) (lines : List (BruteForceLine F)) (remove_pedestal : Bool)
    (cut_off : F) : Except String (List F) :=
  lines.foldlM (applyLine vp wavenumber remove_pedestal cut_off)
    (List.replicate wavenumber.length 0)

/-- The pedestal-default expression of `Gas.absorption_coefficient`
(pyLBL/spectral_lines.py line 169): the keyword argument passed to the line
engine is `remove_pedestal=continuum == "mt-cdk"`. -/
def gas_remove_pedestal (continuum : String) : Bool :=
  continuum == "mt-cdk"

/-- The pedestal default of `Spectroscopy.compute_absorption`
(pyLBL/high_level_api.py lines 148-149): a `None` argument is replaced by
`continua_backend == "mt_ckd"`. -/
def compute_absorption_remove_pedestal (continua_backend : String)
    (remove_pedestal : Option Bool) : Bool :=
  remove_pedestal.getD (continua_backend == "mt_ckd")

/-- Lift of a Python read to a fallible value: a missing read raises, here
with the given message. -/
def exceptOfOption {α : Type*} (o : Option α) (e : String) : Except String α :=
  match o with
  | some a => Except.ok a
  | none => Except.error e

/-- Source method `TotalPartitionFunction.total_partition_function`
(pyLBL/tips.py lines 180-193): left binary search for the temperature, then
linear interpolation between columns `j` and `j+1` of row `isotopologue - 1`;
all four reads use Python indexing (so `j = -1` wraps to the last entry).  An
out-of-range read is an IndexError; a zero interpolation denominator makes
the float division produce NaN (or Inf), not a table value, and is likewise
modelled as a non-value. -/
def total_partition_function {F : Type*} [LinearOrderedField F]
    (temperature_table : List F) (data : List (List F)) (temperature : F)
    (isotopologue : ℕ) : Except String F := do
  let row ← exceptOfOption (pyGet data ((isotopologue : Int) - 1)) "IndexError"
  let j : Int := (searchsorted_left temperature_table temperature : Int) - 1
  let qj ← exceptOfOption (pyGet row j) "IndexError"
  let qj1 ← exceptOfOption (pyGet row (j + 1)) "IndexError"
  let tj ← exceptOfOption (pyGet temperature_table j) "IndexError"
  let tj1 ← exceptOfOption (pyGet temperature_table (j + 1)) "IndexError"
  if tj1 - tj = 0 then Except.error "NaN: zero interpolation denominator"
  else pure (qj + (qj1 - qj) * (temperature - tj) / (tj1 - tj))

/-- Source function `calculate_xsec` (pyLBL/arts_crossfit/xsec_aux_functions.py): quadratic
fit `p00 + p10*T + p01*P + p20*T*T` per frequency, rows of the coefficient
matrix given separately (the source hardcodes four rows). -/
def calculate_xsec {F : Type*} [LinearOrderedCommRing F] (temperature pressure : F)
    (p00 p10 p01 p20 : List F) : List F :=
  (List.range p00.length).map fun j =>
    p00.getD j 0 * 1 + p10.getD j 0 * temperature + p01.getD j 0 * pressure +
      p20.getD j 0 * (temperature * temperature)

/-- Source function `calculate_xsec_fullmodel` (pyLBL/arts_crossfit/xsec_aux_functions.py
lines 73-121): when negative values are present they are zeroed, and when
the original sum was nonnegative the remaining values are rescaled by
`sumx_org / sum(clipped)` to preserve the integral. -/
def calculate_xsec_fullmodel {F : Type*} [LinearOrderedField F]
    (temperature pressure : F) (p00 p10 p01 p20 : List F) : List F :=
  let xsec := calculate_xsec temperature pressure p00 p10 p01 p20
  if 0 < xsec.countP (fun x => decide (x < 0)) then
    let sumx_org := xsec.sum
    let clipped := xsec.map fun x => if x < 0 then 0 else x
    if 0 ≤ sumx_org then clipped.map fun x => x * (sumx_org / clipped.sum)
    else clipped
  else xsec

/-- Avogadro's constant [mol-1] (pyLBL/spectral_lines.py). -/
def avogadro : ℝ := 6.0221409e23

/-- Boltzmann constant [erg K-1] (pyLBL/spectral_lines.py). -/
def boltzmann : ℝ := 1.380658e-16

/-- Conversion factor [m cm-1] (pyLBL/spectral_lines.py). -/
def cm_to_m : ℝ := 0.01

/-- Constant (hc/k) [K cm] (pyLBL/spectral_lines.py). -/
def c2 : ℝ := -1.4387768795689562

/-- Speed of light [cm s-1] (pyLBL/spectral_lines.py). -/
def light_speed : ℝ := 2.99792458e10

/-- Conversion factor [Pa-1 atm] (pyLBL/spectral_lines.py). -/
def pa_to_atm : ℝ := 9.86923e-6

/-- sqrt(log(2)) (pyLBL/spectral_lines.py, numpy log is natural). -/
noncomputable def sqrt_log2 : ℝ := Real.sqrt (Real.log 2)

/-- sqrt(2*log(2)) (pyLBL/spectral_lines.py). -/
noncomputable def sqrt_2log2 : ℝ := Real.sqrt (2 * Real.log 2)

/-- sqrt(2) (pyLBL/spectral_lines.py). -/
noncomputable def sqrt_2 : ℝ := Real.sqrt 2

/-- sqrt(2*pi) (pyLBL/spectral_lines.py). -/
noncomputable def sqrt_2pi : ℝ := Real.sqrt (2 * Real.pi)

/-- Reference temperature of the TIPS tables [K] (pyLBL/tips.py). -/
def TIPS_REFERENCE_TEMPERATURE : ℝ := 296

/-- Source function `pressure_shift_transition_wavenumber` (pyLBL/spectral_lines.py). -/
def pressure_shift_transition_wavenumber (line_center delta_air pressure : ℝ) : ℝ :=
  line_center + delta_air * pressure

/-- Source function `temperature_correct_line_strength` (pyLBL/spectral_lines.py); the
partition function object enters through its `total_partition_function`
method, abstracted as the function `q`. -/
noncomputable def temperature_correct_line_strength (q : ℝ → ℕ → ℝ) (t : ℝ)
    (iso : ℕ) (en v : ℝ) : ℝ :=
  q t iso / (Real.exp (c2 * en / t) * (1 - Real.exp (c2 * v / t)))

/-- Source function `initial_strength_correction` (pyLBL/spectral_lines.py), elementwise. -/
noncomputable def initial_strength_correction (s : ℝ) (q : ℝ → ℕ → ℝ) (t : ℝ)
    (iso : ℕ) (en v : ℝ) : ℝ :=
  s * temperature_correct_line_strength q t iso en v

/-- Source function `voigt_profile` (pyLBL/spectral_lines.py): the real part of the scipy
Faddeeva function at `(dv + i*gamma)/sigma/sqrt(2)` over `sigma*sqrt(2*pi)`,
with `sigma = alpha/sqrt(2*log(2))`; wofz is external, so its real part at a
complex point with the given real and imaginary coordinates is the
parameter `wofzRe`. -/
noncomputable def voigt_profile (wofzRe : ℝ → ℝ → ℝ)
    (dv pressure_halfwidth doppler_halfwidth : ℝ) : ℝ :=
  wofzRe (dv / (doppler_halfwidth / sqrt_2log2) / sqrt_2)
      (pressure_halfwidth / (doppler_halfwidth / sqrt_2log2) / sqrt_2) /
    (doppler_halfwidth / sqrt_2log2) / sqrt_2pi

/-- Source function `pressure_broadened_halfwidth` (pyLBL/spectral_lines.py); the source
argument named for the self-broadening partial pressure is `p_self` here. -/
noncomputable def pressure_broadened_halfwidth (pressure p_self temperature
    n_air n_self gamma_air gamma_self : ℝ) : ℝ :=
  Real.rpow (296 / temperature) n_air * (gamma_air * (pressure - p_self)) +
    Real.rpow (296 / temperature) n_self * gamma_self * p_self

/-- Source function `doppler_broadened_halfwidth` (pyLBL/spectral_lines.py lines 242-255):
`sqrt_log2 * v * sqrt(2*boltzmann*T/(m*c*c))` with `m = mass/avogadro`,
evaluated at the transition wavenumber it is given. -/
noncomputable def doppler_broadened_halfwidth (temperature mass
    transition_wavenumber : ℝ) : ℝ :=
  sqrt_log2 * transition_wavenumber *
    Real.sqrt (2 * boltzmann * temperature /
      ((mass / avogadro) * (light_speed * light_speed)))

/-- Zip of four parallel numpy arrays into one list of tuples. -/
def zip4 {α β γ δ : Type*} (a : List α) (b : List β) (c : List γ) (d : List δ) :
    List (α × β × γ × δ) :=
  a.zip (b.zip (c.zip d))

/-- The `center` array of `line_profile`: pressure-shifted transition
wavenumbers. -/
def line_profile_center (v d_air : List ℝ) (p : ℝ) : List ℝ :=
  List.zipWith (fun vi di => pressure_shift_transition_wavenumber vi di p) v d_air

/-- The `strength` array of `line_profile`: stored strengths divided by the
temperature correction factor. -/
noncomputable def line_profile_strength (q : ℝ → ℕ → ℝ) (s : List ℝ)
    (iso : List ℕ) (en v : List ℝ) (t : ℝ) : List ℝ :=
  (zip4 s iso en v).map fun x =>
    x.1 / temperature_correct_line_strength q t x.2.1 x.2.2.1 x.2.2.2

/-- The `gamma` array of `line_profile`: pressure-broadened halfwidths at
partial pressure `p*vmr`. -/
noncomputable def line_profile_gamma (p vmr t : ℝ)
    (n_air n_self gamma_air gamma_self : List ℝ) : List ℝ :=
  (zip4 n_air n_self gamma_air gamma_self).map fun x =>
    pressure_broadened_halfwidth p (p * vmr) t x.1 x.2.1 x.2.2.1 x.2.2.2

/-- The `alpha` array of `line_profile`: doppler halfwidths
`doppler_broadened_halfwidth(t, mass[iso - 1], v)`, evaluated at the
unshifted transition wavenumbers `v`; `mass[iso - 1]` follows numpy integer
indexing (one negative wrap), an out-of-range id being a fatal error in the
source that the claims never exercise. -/
noncomputable def line_profile_alpha (t : ℝ) (mass : List ℝ) (iso : List ℕ)
    (v : List ℝ) : List ℝ :=
  List.zipWith (fun (isoi : ℕ) vi =>
    doppler_broadened_halfwidth t ((pyGet mass ((isoi : Int) - 1)).getD 0) vi) iso v

/-- Source function `line_profile` (pyLBL/spectral_lines.py lines 101-132): builds the four
per-line arrays, runs `brute_force`, and converts cm2 to m2. -/
noncomputable def line_profile (wofzRe : ℝ → ℝ → ℝ) (v s : List ℝ)
    (q : ℝ → ℕ → ℝ) (iso : List ℕ) (en d_air n_air n_self gamma_air gamma_self :
    List ℝ) (mass : List ℝ) (t p vmr : ℝ) (wavenumber : List ℝ) (cut_off : ℝ)
    (remove_pedestal : Bool) : Except String (List ℝ) :=
  (brute_force (voigt_profile wofzRe) wavenumber
      (zip4 (line_profile_center v d_air p) (line_profile_strength q s iso en v t)
        (line_profile_gamma p vmr t n_air n_self gamma_air gamma_self)
        (line_profile_alpha t mass iso v))
      remove_pedestal cut_off).map fun k => k.map fun x => x * cm_to_m * cm_to_m

/-- Source class `SpectralLines` (pyLBL/spectral_lines.py): the per-transition parameter
arrays. -/
structure SpectralLinesData where
  d_air : List ℝ
  en : List ℝ
  gamma_air : List ℝ
  gamma_self : List ℝ
  iso : List ℕ
  n_air : List ℝ
  s : List ℝ
  v : List ℝ

/-- Source class `Gas` (pyLBL/spectral_lines.py): isotopologue masses, transitions and the
total partition function of one molecule. -/
structure Gas where
  mass : List ℝ
  transitions : SpectralLinesData
  q : ℝ → ℕ → ℝ

/-- The `s` attribute computed in `Gas.__init__`: strengths pre-multiplied by
the correction factor at the TIPS reference temperature. -/
noncomputable def Gas.s (g : Gas) : List ℝ :=
  (zip4 g.transitions.s g.transitions.iso g.transitions.en g.transitions.v).map
    fun x => initial_strength_correction x.1 g.q TIPS_REFERENCE_TEMPERATURE
      x.2.1 x.2.2.1 x.2.2.2

/-- Source method `Gas.absorption_coefficient` (pyLBL/spectral_lines.py lines 151-169):
calls `line_profile` with `n_air` in both exponent slots, pressure converted
to atm, and `remove_pedestal=continuum == "mt-cdk"`. -/
noncomputable def Gas.absorption_coefficient (wofzRe : ℝ → ℝ → ℝ) (g : Gas)
    (temperature pressure volume_mixing_ratio : ℝ) (grid : List ℝ)
    (continuum : String) : Except String (List ℝ) :=
  line_profile wofzRe g.transitions.v g.s g.q g.transitions.iso g.transitions.en
    g.transitions.d_air g.transitions.n_air g.transitions.n_air
    g.transitions.gamma_air g.transitions.gamma_self g.mass temperature
    (pressure * pa_to_atm) volume_mixing_ratio grid 25
    (gas_remove_pedestal continuum)

/-- Second radiation constant [cm K] (pyLBL/mt_ckd/utils.py). -/
def SECOND_RADIATION_CONSTANT : ℝ := 1.4387752

/-- Source function `radiation_term` (pyLBL/mt_ckd/utils.py lines 45-59), elementwise on the
wavenumber array: with `x = w/(T/SECOND_RADIATION_CONSTANT)`, first
`r = where(x <= 0.01, 0.5*x*w, w)`, then the returned value is
`where(x <= 10, w*(1 - exp(-x))/(1 + exp(-x)), r)`. -/
noncomputable def radiation_term (wavenumber : List ℝ) (temperature : ℝ) :
    List ℝ :=
  wavenumber.map fun w =>
    let x := w / (temperature / SECOND_RADIATION_CONSTANT)
    let r := if x ≤ 0.01 then 0.5 * x * w else w
    if x ≤ 10 then w * (1 - Real.exp (-x)) / (1 + Real.exp (-x)) else r

/-- Modelled from the spec: the radiation term the specification states,
`R(w,T) = w * tanh(h*c*w/(2*k*T))`, the constant `h*c/k` being the second
radiation constant. -/
noncomputable def radiation_term_spec (w temperature : ℝ) : ℝ :=
  w * Real.tanh (SECOND_RADIATION_CONSTANT * w / (2 * temperature))

/-- Modelled from the spec: the Doppler half-width formula the specification
states, `v * sqrt(2*log(2)*boltzmann*T/(mass/avogadro))/c`, to be compared
with the source's `doppler_broadened_halfwidth`. -/
noncomputable def doppler_halfwidth_spec (temperature mass v : ℝ) : ℝ :=
  v * Real.sqrt (2 * Real.log 2 * boltzmann * temperature / (mass / avogadro)) /
    light_speed

/-- Modelled from the spec: one line's contribution under the spec's
per-line pedestal description (claim C3): its strength-weighted profile over
its own window, minus the smaller of that line's own profile values at the
window's two edge grid points, and zero outside the window. -/
def per_line_contribution_spec {F : Type*} [LinearOrderedCommRing F]
    (vp : F → F → F → F) (w : List F) (line : BruteForceLine F) (rp : Bool)
    (co : F) : List F :=
  let left := searchsorted_left w (line.1 - co)
  let right := searchsorted_right w (line.1 + co)
  let value := fun j => line.2.1 * vp |w.getD j 0 - line.1| line.2.2.1 line.2.2.2
  let ped := if rp then min (value left) (value (right - 1)) else 0
  (List.range w.length).map fun j =>
    if left ≤ j ∧ j < right then value j - ped else 0

/-- Modelled from the spec: the whole output under the spec's per-line
pedestal description, the pointwise sum of the per-line contributions. -/
def brute_force_spec {F : Type*} [LinearOrderedCommRing F] (vp : F → F → F → F)
    (w : List F) (lines : List (BruteForceLine F)) (rp : Bool) (co : F) :
    List F :=
  lines.foldl (fun acc l =>
      List.zipWith (· + ·) acc (per_line_contribution_spec vp w l rp co))
    (List.replicate w.length 0)

/-- State of the `brute_force` loop for the frame claim: the five input
arrays and the output array `k`. -/
structure BruteForceState (F : Type*) where
  wavenumber : List F
  center : List F
  strength : List F
  gamma : List F
  alpha : List F
  k : List F
  deriving DecidableEq

/-- One iteration of the `brute_force` loop as a state transformer: reads
line `i` from the input arrays, runs the loop body, and writes the result
back into the only assigned field, `k`. -/
def brute_force_step {F : Type*} [LinearOrderedCommRing F] (vp : F → F → F → F)
    (rp : Bool) (co : F) (st : BruteForceState F) (i : ℕ) :
    Except String (BruteForceState F) :=
  match applyLine vp st.wavenumber rp co st.k
      (st.center.getD i 0, st.strength.getD i 0, st.gamma.getD i 0,
        st.alpha.getD i 0) with
  | Except.error e => Except.error e
  | Except.ok k1 => Except.ok { st with k := k1 }

/-- The `brute_force` loop as a run of the state machine: `k` is freshly
allocated as zeros, then the loop body runs once per transition index. -/
def brute_force_run {F : Type*} [LinearOrderedCommRing F] (vp : F → F → F → F)
    (rp : Bool) (co : F) (st : BruteForceState F) :
    Except String (BruteForceState F) :=
  (List.range st.center.length).foldlM (brute_force_step vp rp co)
    { st with k := List.replicate st.wavenumber.length 0 }

instance {ε α : Type*} [DecidableEq ε] [DecidableEq α] : DecidableEq (Except ε α) := fun x y =>
  match x, y with
  | Except.error a, Except.error b =>
    if h : a = b then Decidable.isTrue (by rw [h]) else Decidable.isFalse (by simp [h])
  | Except.error _, Except.ok _ => Decidable.isFalse (by simp)
  | Except.ok _, Except.error _ => Decidable.isFalse (by simp)
  | Except.ok a, Except.ok b =>
    if h : a = b then Decidable.isTrue (by rw [h]) else Decidable.isFalse (by simp [h])

theorem applyIdx_length {α : Type*} (f : ℕ → α → α) :
    ∀ (i : ℕ) (l : List α), (applyIdx f i l).length = l.length := by
  intro i l
  induction l generalizing i with
  | nil => rfl
  | cons x xs ih => simp [applyIdx, ih]

theorem applyIdx_get? {α : Type*} (f : ℕ → α → α) :
    ∀ (i : ℕ) (l : List α) (j : ℕ),
      (applyIdx f i l).get? j = (l.get? j).map (f (i + j)) := by
  intro i l
  induction l generalizing i with
  | nil => intro j; rfl
  | cons x xs ih =>
    intro j
    cases j with
    | zero => simp [applyIdx]
    | succ j =>
      have harith : i + 1 + j = i + (j + 1) := by omega
      simp only [applyIdx, List.get?_cons_succ, ih (i + 1) j, harith]

theorem sliceMod_length {α : Type*} (lo hi : ℕ) (f : ℕ → α → α) (k : List α) :
    (sliceMod lo hi f k).length = k.length :=
  applyIdx_length _ 0 k

theorem sliceMod_get? {α : Type*} (lo hi : ℕ) (f : ℕ → α → α) (k : List α)
    (j : ℕ) : (sliceMod lo hi f k).get? j =
      (k.get? j).map (fun x => if lo ≤ j ∧ j < hi then f j x else x) := by
  simpa using applyIdx_get? (fun j x => if lo ≤ j ∧ j < hi then f j x else x) 0 k j

theorem sliceMod_get?_outside {α : Type*} {lo hi j : ℕ} (f : ℕ → α → α)
    (k : List α) (h : ¬(lo ≤ j ∧ j < hi)) :
    (sliceMod lo hi f k).get? j = k.get? j := by
  rw [sliceMod_get?]
  cases hk : k.get? j with
  | none => rfl
  | some x => simp [h]

theorem sliceMod_get?_inside {α : Type*} {lo hi j : ℕ} (f : ℕ → α → α)
    (k : List α) (h : lo ≤ j ∧ j < hi) :
    (sliceMod lo hi f k).get? j = (k.get? j).map (f j) := by
  rw [sliceMod_get?]
  cases hk : k.get? j with
  | none => rfl
  | some x => simp [h]

theorem sliceMod_empty {α : Type*} {lo hi : ℕ} (f : ℕ → α → α) (k : List α)
    (h : hi ≤ lo) : sliceMod lo hi f k = k := by
  apply List.ext_get?
  intro j
  exact sliceMod_get?_outside f k (by omega)

theorem pyGet_ofNat {α : Type*} (l : List α) (j : ℕ) :
    pyGet l (j : Int) = l.get? j := by
  simp [pyGet]

theorem pyGet_neg_one {α : Type*} (l : List α) (h : l ≠ []) :
    pyGet l (-1) = l.get? (l.length - 1) := by
  have hlen : 0 < l.length := List.length_pos.mpr h
  have h1 : ¬((0 : Int) ≤ -1) := by omega
  have h2 : (0 : Int) ≤ -1 + l.length := by omega
  simp only [pyGet, h1, if_false, h2, if_true]
  congr 1
  omega

theorem searchsorted_left_le_length {F : Type*} [LinearOrder F] (l : List F)
    (v : F) : searchsorted_left l v ≤ l.length :=
  List.countP_le_length _

theorem searchsorted_right_le_length {F : Type*} [LinearOrder F] (l : List F)
    (v : F) : searchsorted_right l v ≤ l.length :=
  List.countP_le_length _

theorem lt_searchsorted_left {F : Type*} [LinearOrder F] :
    ∀ (l : List F), l.Pairwise (· < ·) → ∀ (j : ℕ) (hj : j < l.length) (v : F),
      l[j] < v → j < searchsorted_left l v := by
  intro l
  induction l with
  | nil => intro _ j hj; exact absurd hj (by simp)
  | cons a l ih =>
    intro hp j hj v hlt
    rw [List.pairwise_cons] at hp
    cases j with
    | zero =>
      simp only [List.getElem_cons_zero] at hlt
      rw [searchsorted_left, List.countP_cons_of_pos _ _ (by simpa using hlt)]
      omega
    | succ j =>
      rw [List.getElem_cons_succ] at hlt
      have hj2 : j < l.length := by simpa using hj
      have h1 := ih hp.2 j hj2 v hlt
      have ha : a < v := lt_trans (hp.1 _ (List.getElem_mem hj2)) hlt
      rw [searchsorted_left, List.countP_cons_of_pos _ _ (by simpa using ha)]
      rw [searchsorted_left] at h1
      omega

theorem searchsorted_right_le_of_lt {F : Type*} [LinearOrder F] :
    ∀ (l : List F), l.Pairwise (· < ·) → ∀ (j : ℕ) (hj : j < l.length) (v : F),
      v < l[j] → searchsorted_right l v ≤ j := by
  intro l
  induction l with
  | nil => intro _ j hj; exact absurd hj (by simp)
  | cons a l ih =>
    intro hp j hj v hlt
    rw [List.pairwise_cons] at hp
    cases j with
    | zero =>
      simp only [List.getElem_cons_zero] at hlt
      have hz : searchsorted_right (a :: l) v = 0 := by
        rw [searchsorted_right, List.countP_eq_zero]
        intro b hb
        rcases List.mem_cons.mp hb with rfl | hb2
        · simpa using not_le.mpr hlt
        · simpa using not_le.mpr (lt_trans hlt (hp.1 _ hb2))
      omega
    | succ j =>
      rw [List.getElem_cons_succ] at hlt
      have hj2 : j < l.length := by simpa using hj
      have h1 := ih hp.2 j hj2 v hlt
      rw [searchsorted_right, List.countP_cons]
      rw [searchsorted_right] at h1
      have : (if decide (a ≤ v) = true then 1 else 0) ≤ 1 := by
        split <;> omega
      omega

theorem searchsorted_left_le_of_le {F : Type*} [LinearOrder F] :
    ∀ (l : List F), l.Pairwise (· < ·) → ∀ (j : ℕ) (hj : j < l.length) (v : F),
      v ≤ l[j] → searchsorted_left l v ≤ j := by
  intro l
  induction l with
  | nil => intro _ j hj; exact absurd hj (by simp)
  | cons a l ih =>
    intro hp j hj v hle
    rw [List.pairwise_cons] at hp
    cases j with
    | zero =>
      simp only [List.getElem_cons_zero] at hle
      have hz : searchsorted_left (a :: l) v = 0 := by
        rw [searchsorted_left, List.countP_eq_zero]
        intro b hb
        rcases List.mem_cons.mp hb with rfl | hb2
        · simpa using not_lt.mpr hle
        · simpa using not_lt.mpr (le_trans hle (le_of_lt (hp.1 _ hb2)))
      omega
    | succ j =>
      rw [List.getElem_cons_succ] at hle
      have hj2 : j < l.length := by simpa using hj
      have h1 := ih hp.2 j hj2 v hle
      rw [searchsorted_left, List.countP_cons]
      rw [searchsorted_left] at h1
      have : (if decide (a < v) = true then 1 else 0) ≤ 1 := by
        split <;> omega
      omega

theorem lt_searchsorted_right {F : Type*} [LinearOrder F] :
    ∀ (l : List F), l.Pairwise (· < ·) → ∀ (j : ℕ) (hj : j < l.length) (v : F),
      l[j] ≤ v → j < searchsorted_right l v := by
  intro l
  induction l with
  | nil => intro _ j hj; exact absurd hj (by simp)
  | cons a l ih =>
    intro hp j hj v hle
    rw [List.pairwise_cons] at hp
    cases j with
    | zero =>
      simp only [List.getElem_cons_zero] at hle
      rw [searchsorted_right, List.countP_cons_of_pos _ _ (by simpa using hle)]
      omega
    | succ j =>
      rw [List.getElem_cons_succ] at hle
      have hj2 : j < l.length := by simpa using hj
      have h1 := ih hp.2 j hj2 v hle
      have ha : a ≤ v := le_trans (le_of_lt (hp.1 _ (List.getElem_mem hj2))) hle
      rw [searchsorted_right, List.countP_cons_of_pos _ _ (by simpa using ha)]
      rw [searchsorted_right] at h1
      omega

theorem searchsorted_left_self {F : Type*} [LinearOrder F] :
    ∀ (l : List F), l.Pairwise (· < ·) → ∀ (m : ℕ) (hm : m < l.length),
      searchsorted_left l l[m] = m := by
  intro l
  induction l with
  | nil => intro _ m hm; exact absurd hm (by simp)
  | cons a l ih =>
    intro hp m hm
    rw [List.pairwise_cons] at hp
    cases m with
    | zero =>
      simp only [List.getElem_cons_zero]
      rw [searchsorted_left, List.countP_eq_zero]
      intro b hb
      rcases List.mem_cons.mp hb with rfl | hb2
      · simp
      · simpa using not_lt.mpr (le_of_lt (hp.1 _ hb2))
    | succ m =>
      have hm2 : m < l.length := by simpa using hm
      have ha : a < l[m] := hp.1 _ (List.getElem_mem hm2)
      rw [List.getElem_cons_succ, searchsorted_left,
        List.countP_cons_of_pos _ _ (by simpa using ha)]
      have h1 := ih hp.2 m hm2
      rw [searchsorted_left] at h1
      omega

theorem searchsorted_left_lt_length {F : Type*} [LinearOrder F] {l : List F}
    {v b : F} (hb : b ∈ l) (hnb : ¬b < v) : searchsorted_left l v < l.length := by
  rcases lt_or_eq_of_le (searchsorted_left_le_length l v) with h | h
  · exact h
  · exfalso
    have := List.countP_eq_length.mp h b hb
    simp only [decide_eq_true_eq] at this
    exact hnb this

theorem range_map_get? {α : Type*} (f : ℕ → α) (n j : ℕ) :
    ((List.range n).map f).get? j = if j < n then some (f j) else none := by
  by_cases h : j < n
  · rw [List.get?_eq_getElem?, List.getElem?_map, List.getElem?_range h]
    simp [h]
  · rw [List.get?_eq_getElem?, List.getElem?_eq_none (by simpa using h)]
    simp [h]

theorem replicate_get? {α : Type*} (n j : ℕ) (a : α) :
    (List.replicate n a).get? j = if j < n then some a else none := by
  by_cases h : j < n
  · simp [List.get?_eq_getElem?, List.getElem?_replicate, h]
  · rw [List.get?_eq_getElem?, List.getElem?_eq_none (by simpa using h)]
    simp [h]

theorem bf_add_length {F : Type*} [LinearOrderedCommRing F] (vp : F → F → F → F)
    (w : List F) (co : F) (k : List F) (line : BruteForceLine F) :
    (bf_add vp w co k line).length = k.length :=
  sliceMod_length _ _ _ _

theorem brute_force_singleton {F : Type*} [LinearOrderedCommRing F]
    (vp : F → F → F → F) (w : List F) (line : BruteForceLine F) (rp : Bool)
    (co : F) : brute_force vp w [line] rp co =
      applyLine vp w rp co (List.replicate w.length 0) line := by
  show List.foldlM _ _ _ = _
  simp [List.foldlM]

theorem bf_add_zeros_get? {F : Type*} [LinearOrderedCommRing F]
    (vp : F → F → F → F) (w : List F) (co c s γ α : F) (j : ℕ) :
    (bf_add vp w co (List.replicate w.length 0) (c, s, γ, α)).get? j =
      if j < w.length then
        some (if searchsorted_left w (c - co) ≤ j ∧
            j < searchsorted_right w (c + co) then
          s * vp |w.getD j 0 - c| γ α else 0)
      else none := by
  rw [bf_add, sliceMod_get?, replicate_get?]
  by_cases h : j < w.length
  · simp only [h, if_true, Option.map_some]
    by_cases h2 : searchsorted_left w (c - co) ≤ j ∧ j < searchsorted_right w (c + co)
    · simp [h2]
    · simp [h2]
  · simp [h]

theorem brute_force_single_eval {F : Type*} [LinearOrderedCommRing F]
    (vp : F → F → F → F) (w : List F) (c s γ α : F) (co : F) :
    brute_force vp w [(c, s, γ, α)] false co = Except.ok
      ((List.range w.length).map fun j =>
        if searchsorted_left w (c - co) ≤ j ∧
            j < searchsorted_right w (c + co) then
          s * vp |w.getD j 0 - c| γ α
        else 0) := by
  rw [brute_force_singleton, applyLine]
  simp only [Bool.false_eq_true, if_false]
  apply congrArg
  apply List.ext_get?
  intro j
  rw [bf_add_zeros_get?, range_map_get?]

theorem applyLine_pedestal_error {F : Type*} [LinearOrderedCommRing F]
    (vp : F → F → F → F) (w : List F) (co : F) (k : List F)
    (line : BruteForceLine F) :
    ∃ e, applyLine vp w true co k line = Except.error e := by
  rw [applyLine]
  simp only [if_true]
  cases h1 : (bf_add vp w co k line).get? (searchsorted_left w (line.1 - co)) with
  | none => exact ⟨_, rfl⟩
  | some a =>
    cases h2 : pyGet (bf_add vp w co k line)
        ((searchsorted_right w (line.1 + co) : Int) - 1) with
    | none => exact ⟨_, rfl⟩
    | some b => exact ⟨_, rfl⟩
theorem pairwise_getElem_lt {F : Type*} [LinearOrder F] {l : List F}
    (h : l.Pairwise (· < ·)) {i j : ℕ} (hi : i < l.length) (hj : j < l.length)
    (hij : i < j) : l[i] < l[j] :=
  List.pairwise_iff_getElem.mp h i j hi hj hij

theorem get?_eq_some_getD {α : Type*} (l : List α) (j : ℕ) (h : j < l.length)
    (d : α) : l.get? j = some (l.getD j d) := by
  rw [List.get?_eq_getElem?, List.getElem?_eq_getElem h,
    List.getD_eq_getElem?_getD, List.getElem?_eq_getElem h]
  rfl

theorem interp_node {F : Type*} [LinearOrderedField F] (qj qj1 x : F)
    (h : x ≠ 0) : qj + (qj1 - qj) * x / x = qj1 := by
  rw [mul_div_assoc, div_self h, mul_one]
  ring

theorem exceptOfOption_some {α : Type*} (a : α) (e : String) :
    exceptOfOption (some a) e = Except.ok a := rfl

theorem ok_bind {ε : Type*} {α β : Type v} (a : α) (f : α → Except ε β) :
    (Except.ok a : Except ε α) >>= f = f a := rfl

theorem pure_eq_ok {ε α : Type*} (a : α) :
    (pure a : Except ε α) = Except.ok a := rfl

/-- C6 (amended): total_partition_function evaluated exactly at any table
temperature (including the first and the last) returns the stored value of
that node for every isotopologue present in the table, provided the table
has at least two temperature nodes; a single-node table instead divides 0.0
by 0.0 at every temperature (modelled as the NaN error value). -/
theorem total_partition_function_exact_at_node {F : Type*} [LinearOrderedField F]
    (temps : List F) (data : List (List F)) (iso : ℕ) (row : List F) (m : ℕ)
    (hm : m < temps.length) (h2n : 2 ≤ temps.length)
    (hsorted : temps.Pairwise (· < ·)) (hiso : 1 ≤ iso)
    (hrow : data.get? (iso - 1) = some row) (hlen : row.length = temps.length) :
    total_partition_function temps data temps[m] iso =
      Except.ok (row.getD m 0) := by
  have hrow2 : pyGet data ((iso : Int) - 1) = some row := by
    rw [show ((iso : ℕ) : Int) - 1 = ((iso - 1 : ℕ) : Int) by omega, pyGet_ofNat,
      hrow]
  have hss : searchsorted_left temps temps[m] = m :=
    searchsorted_left_self temps hsorted m hm
  rw [total_partition_function]
  simp only [hrow2, exceptOfOption_some, ok_bind, hss]
  have hrn : 0 < row.length := by omega
  have hner : row ≠ [] := List.length_pos.mp hrn
  have hnet : temps ≠ [] := List.length_pos.mp (by omega)
  cases m with
  | zero =>
    have hq1 : pyGet row ((0 : Int) - 1) = some (row.getD (row.length - 1) 0) := by
      rw [show ((0 : Int) - 1) = -1 by norm_num, pyGet_neg_one _ hner,
        get?_eq_some_getD row (row.length - 1) (by omega) 0]
    have hq2 : pyGet row ((0 : Int) - 1 + 1) = some (row.getD 0 0) := by
      rw [show ((0 : Int) - 1 + 1) = ((0 : ℕ) : Int) by norm_num, pyGet_ofNat,
        get?_eq_some_getD _ _ (by omega) 0]
    have ht1 : pyGet temps ((0 : Int) - 1) =
        some (temps.getD (temps.length - 1) 0) := by
      rw [show ((0 : Int) - 1) = -1 by norm_num, pyGet_neg_one _ hnet,
        get?_eq_some_getD temps (temps.length - 1) (by omega) 0]
    have ht2 : pyGet temps ((0 : Int) - 1 + 1) = some (temps.getD 0 0) := by
      rw [show ((0 : Int) - 1 + 1) = ((0 : ℕ) : Int) by norm_num, pyGet_ofNat,
        get?_eq_some_getD _ _ (by omega) 0]
    simp only [Nat.cast_zero, hq1, hq2, ht1, ht2, exceptOfOption_some, ok_bind]
    have ht0 : temps.getD 0 0 = temps[0] := by
      rw [List.getD_eq_getElem?_getD, List.getElem?_eq_getElem hm]
      rfl
    have htl : temps.getD (temps.length - 1) 0 = temps[temps.length - 1] := by
      rw [List.getD_eq_getElem?_getD, List.getElem?_eq_getElem (by omega)]
      rfl
    have hne0 : temps.getD 0 0 - temps.getD (temps.length - 1) 0 ≠ 0 := by
      rw [htl, ht0]
      have hlt := pairwise_getElem_lt hsorted (i := 0) (j := temps.length - 1)
        hm (by omega) (by omega)
      intro hcon
      rw [sub_eq_zero.mp hcon] at hlt
      exact lt_irrefl _ hlt
    rw [if_neg hne0, pure_eq_ok, Except.ok.injEq, ht0]
    exact interp_node _ _ _ (ht0 ▸ hne0)
  | succ n =>
    have hq1 : pyGet row ((n + 1 : ℕ) - 1 : Int) = some (row.getD n 0) := by
      rw [show (((n + 1 : ℕ) : Int) - 1) = ((n : ℕ) : Int) by omega, pyGet_ofNat,
        get?_eq_some_getD _ _ (by omega) 0]
    have hq2 : pyGet row (((n + 1 : ℕ) : Int) - 1 + 1) =
        some (row.getD (n + 1) 0) := by
      rw [show (((n + 1 : ℕ) : Int) - 1 + 1) = ((n + 1 : ℕ) : Int) by omega,
        pyGet_ofNat, get?_eq_some_getD _ _ (by omega) 0]
    have ht1 : pyGet temps (((n + 1 : ℕ) : Int) - 1) = some (temps.getD n 0) := by
      rw [show (((n + 1 : ℕ) : Int) - 1) = ((n : ℕ) : Int) by omega, pyGet_ofNat,
        get?_eq_some_getD _ _ (by omega) 0]
    have ht2 : pyGet temps (((n + 1 : ℕ) : Int) - 1 + 1) =
        some (temps.getD (n + 1) 0) := by
      rw [show (((n + 1 : ℕ) : Int) - 1 + 1) = ((n + 1 : ℕ) : Int) by omega,
        pyGet_ofNat, get?_eq_some_getD _ _ (by omega) 0]
    simp only [hq1, hq2, ht1, ht2, exceptOfOption_some, ok_bind]
    have htn : temps.getD n 0 = temps[n] := by
      rw [List.getD_eq_getElem?_getD, List.getElem?_eq_getElem (by omega)]
      rfl
    have htn1 : temps.getD (n + 1) 0 = temps[n + 1] := by
      rw [List.getD_eq_getElem?_getD, List.getElem?_eq_getElem hm]
      rfl
    have hne0 : temps.getD (n + 1) 0 - temps.getD n 0 ≠ 0 := by
      rw [htn, htn1]
      have := pairwise_getElem_lt hsorted (i := n) (j := n + 1) (by omega) hm
        (by omega)
      intro hcon
      have := sub_eq_zero.mp hcon
      linarith
    rw [if_neg hne0, pure_eq_ok, Except.ok.injEq, htn1]
    exact interp_node _ _ _ (htn1 ▸ hne0)

theorem tpf_single_node {F : Type*} [LinearOrderedField F] (t0 q0 : F) :
    total_partition_function [t0] [[q0]] t0 1 =
      Except.error "NaN: zero interpolation denominator" := by
  have hss : searchsorted_left [t0] t0 = 0 := by
    simp [searchsorted_left, List.countP_cons, lt_irrefl]
  rw [total_partition_function]
  have hrow2 : pyGet [[q0]] ((1 : ℕ) - 1 : Int) = some [q0] := rfl
  have hq1 : pyGet [q0] ((0 : Int) - 1) = some q0 := rfl
  have hq2 : pyGet [q0] ((0 : Int) - 1 + 1) = some q0 := rfl
  have ht1 : pyGet [t0] ((0 : Int) - 1) = some t0 := rfl
  have ht2 : pyGet [t0] ((0 : Int) - 1 + 1) = some t0 := rfl
  simp only [hrow2, exceptOfOption_some, ok_bind, hss, Nat.cast_zero,
    hq1, hq2, ht1, ht2]
  rw [if_pos (sub_self t0)]

theorem clip_sum_le {F : Type*} [LinearOrderedCommRing F] (l : List F) :
    l.sum ≤ (l.map fun x => if x < 0 then 0 else x).sum := by
  induction l with
  | nil => simp
  | cons a l ih =>
    simp only [List.map_cons, List.sum_cons]
    have ha : a ≤ if a < 0 then 0 else a := by
      split <;> simp_all [le_of_lt]
    exact add_le_add ha ih

theorem clip_sum_lt {F : Type*} [LinearOrderedCommRing F] (l : List F)
    (h : ∃ x ∈ l, x < 0) : l.sum < (l.map fun x => if x < 0 then 0 else x).sum := by
  induction l with
  | nil => simp at h
  | cons a l ih =>
    simp only [List.map_cons, List.sum_cons]
    rcases h with ⟨x, hx, hxneg⟩
    rcases List.mem_cons.mp hx with rfl | hxl
    · have ha : x < if x < 0 then 0 else x := by
        rw [if_pos hxneg]
        exact hxneg
      exact add_lt_add_of_lt_of_le ha (clip_sum_le l)
    · have ha : a ≤ if a < 0 then 0 else a := by
        split <;> simp_all [le_of_lt]
      exact add_lt_add_of_le_of_lt ha (ih ⟨x, hxl, hxneg⟩)

/-- C8 (amended): when the raw fitted spectrum has a negative value,
calculate_xsec_fullmodel clips the negatives to zero in every case; if the
raw sum was nonnegative it additionally rescales so the result is everywhere
nonnegative with the raw sum preserved exactly, while if the raw sum was
negative the clipped spectrum is returned without rescaling (the negatives
are still removed, the spectrum is not left as-is). -/
theorem calculate_xsec_fullmodel_correction {F : Type*} [LinearOrderedField F]
    (t p : F) (p00 p10 p01 p20 raw : List F)
    (hraw : calculate_xsec t p p00 p10 p01 p20 = raw)
    (hneg : ∃ x ∈ raw, x < 0) :
    (0 ≤ raw.sum →
      (∀ y ∈ calculate_xsec_fullmodel t p p00 p10 p01 p20, 0 ≤ y) ∧
        (calculate_xsec_fullmodel t p p00 p10 p01 p20).sum = raw.sum) ∧
      (raw.sum < 0 →
        calculate_xsec_fullmodel t p p00 p10 p01 p20 =
          raw.map fun x => if x < 0 then 0 else x) := by
  have hcount : 0 < raw.countP (fun x => decide (x < 0)) := by
    rw [List.countP_pos_iff]
    rcases hneg with ⟨x, hx, hxneg⟩
    exact ⟨x, hx, by simpa using hxneg⟩
  rw [calculate_xsec_fullmodel]
  simp only [hraw]
  rw [if_pos hcount]
  constructor
  · intro h0
    have hlt : raw.sum < (raw.map fun x => if x < 0 then 0 else x).sum :=
      clip_sum_lt raw hneg
    have hcs : 0 < (raw.map fun x => if x < 0 then 0 else x).sum :=
      lt_of_le_of_lt h0 hlt
    rw [if_pos h0]
    constructor
    · intro y hy
      rcases List.mem_map.mp hy with ⟨x, hx, rfl⟩
      rcases List.mem_map.mp hx with ⟨z, _, rfl⟩
      have hz : (0 : F) ≤ if z < 0 then 0 else z := by
        split
        · exact le_refl 0
        · simp_all [not_lt]
      exact mul_nonneg hz (div_nonneg h0 (le_of_lt hcs))
    · rw [List.sum_map_mul_right]
      simp only [List.map_id']
      rw [mul_comm, div_mul_cancel₀ _ (ne_of_gt hcs)]
  · intro hlt0
    rw [if_neg (not_le.mpr hlt0)]

/-- Witness for C6 at a concrete three-node table. -/
theorem total_partition_function_exact_at_node_witness :
    total_partition_function [(1 : ℚ), 2, 4] [[10, 20, 40]] ([(1 : ℚ), 2, 4][1]) 1 =
      Except.ok ([(10 : ℚ), 20, 40].getD 1 0) :=
  total_partition_function_exact_at_node [(1 : ℚ), 2, 4] [[10, 20, 40]] 1
    [10, 20, 40] 1 (by decide) (by decide) (by decide) (by decide) rfl rfl

/-- C6 counterexample: a single-node table (one temperature 296 with stored
value 10) is strictly increasing, and 296 is one of its node temperatures,
yet total_partition_function does not return the stored value 10: the
bracketing index j = -1 wraps to the same single node, so the interpolation
denominator t[j+1] - t[j] is 0.0 and the division yields NaN (modelled as
the NaN error value). -/
theorem total_partition_function_single_node_nan :
    total_partition_function [(296 : ℚ)] [[10]] 296 1 =
      Except.error "NaN: zero interpolation denominator" ∧
      total_partition_function [(296 : ℚ)] [[10]] 296 1 ≠ Except.ok 10 := by
  constructor
  · exact tpf_single_node 296 10
  · rw [tpf_single_node 296 10]
    intro hcon
    exact Except.noConfusion hcon

/-- C8 counterexample: at temperature 0 and pressure 0 with coefficient rows
p00 = [-3, 1] and the rest zero, the raw spectrum is [-3, 1] with negative
sum, and calculate_xsec_fullmodel returns [0, 1]: the negative value is
clipped to zero instead of the spectrum being left as-is. -/
theorem calculate_xsec_fullmodel_negative_sum_clips :
    calculate_xsec (0 : ℚ) 0 [-3, 1] [0, 0] [0, 0] [0, 0] = [-3, 1] ∧
      ([(-3 : ℚ), 1].sum < 0) ∧
      calculate_xsec_fullmodel (0 : ℚ) 0 [-3, 1] [0, 0] [0, 0] [0, 0] = [0, 1] ∧
      ([(0 : ℚ), 1] ≠ [(-3 : ℚ), 1]) := by
  refine ⟨by simp [calculate_xsec, List.range_succ], by norm_num, ?_, by decide⟩
  have h : calculate_xsec (0 : ℚ) 0 [-3, 1] [0, 0] [0, 0] [0, 0] = [-3, 1] := by
    simp [calculate_xsec, List.range_succ]
  rw [calculate_xsec_fullmodel]
  simp only [h]
  norm_num

/-- Witness for C8 at a concrete raw spectrum [-1, 1] with nonnegative sum. -/
theorem calculate_xsec_fullmodel_correction_witness :
    (∀ y ∈ calculate_xsec_fullmodel (0 : ℚ) 0 [-1, 1] [0, 0] [0, 0] [0, 0], 0 ≤ y) ∧
      (calculate_xsec_fullmodel (0 : ℚ) 0 [-1, 1] [0, 0] [0, 0] [0, 0]).sum =
        ([(-1 : ℚ), 1]).sum :=
  (calculate_xsec_fullmodel_correction 0 0 [-1, 1] [0, 0] [0, 0] [0, 0] [-1, 1]
    (by simp [calculate_xsec, List.range_succ]) (by decide)).1 (by simp)

/-- C1: the pedestal flag of Gas.absorption_coefficient compares its
continuum argument against the misspelled string "mt-cdk", so the default
continuum "mt-ckd" yields remove_pedestal = false (the typo is the code bug:
"mt-cdk" names nothing anywhere in the repository, while the high-level
default, the entry-point name and the docstrings all use the MT-CKD
continuum); Spectroscopy.compute_absorption with remove_pedestal=None does
enable pedestal removal exactly for the "mt_ckd" continua backend. -/
theorem gas_remove_pedestal_typo :
    gas_remove_pedestal "mt-ckd" = false ∧ gas_remove_pedestal "mt-cdk" = true ∧
      compute_absorption_remove_pedestal "mt_ckd" none = true ∧
      compute_absorption_remove_pedestal "arts" none = false ∧
      compute_absorption_remove_pedestal "mt_ckd" (some false) = false := by
  refine ⟨?_, rfl, rfl, ?_, rfl⟩ <;> decide

theorem tanh_lt_one_of_real (x : ℝ) : Real.tanh x < 1 := by
  rw [Real.tanh_eq_sinh_div_cosh, div_lt_one (Real.cosh_pos x)]
  exact Real.sinh_lt_cosh x

theorem exp_ratio_eq_tanh (x : ℝ) :
    (1 - Real.exp (-x)) / (1 + Real.exp (-x)) = Real.tanh (x / 2) := by
  have hab : Real.exp (x / 2) * Real.exp (-(x / 2)) = 1 := by
    rw [← Real.exp_add]
    simp
  have hbx : Real.exp (-x) = Real.exp (-(x / 2)) * Real.exp (-(x / 2)) := by
    rw [← Real.exp_add]
    ring_nf
  rw [Real.tanh_eq_sinh_div_cosh, Real.sinh_eq, Real.cosh_eq, hbx]
  have hden2 : (0 : ℝ) < 1 + Real.exp (-(x / 2)) * Real.exp (-(x / 2)) := by
    positivity
  have hden3 : (0 : ℝ) < (Real.exp (x / 2) + Real.exp (-(x / 2))) / 2 := by
    positivity
  rw [div_eq_div_iff (ne_of_gt hden2) (ne_of_gt hden3)]
  linear_combination (-(Real.exp (-(x / 2)))) * hab

/-- C4 (amended): for positive temperature, radiation_term returns
nu*tanh(hc*nu/(2kT)) exactly when x = hc*nu/(kT) is at most 10 and returns nu
itself above that; the small-argument linear value 0.5*x*nu, computed under
the threshold x <= 0.01, is overwritten by the final selection and is never
returned. -/
theorem radiation_term_characterization (ws : List ℝ) (t : ℝ) (ht : 0 < t) :
    radiation_term ws t = ws.map fun w =>
      if w * SECOND_RADIATION_CONSTANT / t ≤ 10 then radiation_term_spec w t
      else w := by
  rw [radiation_term]
  apply List.map_congr_left
  intro w _
  have htne : t ≠ 0 := ne_of_gt ht
  have hx : w / (t / SECOND_RADIATION_CONSTANT) = w * SECOND_RADIATION_CONSTANT / t :=
    div_div_eq_mul_div w t SECOND_RADIATION_CONSTANT
  show (if w / (t / SECOND_RADIATION_CONSTANT) ≤ 10 then
      w * (1 - Real.exp (-(w / (t / SECOND_RADIATION_CONSTANT)))) /
        (1 + Real.exp (-(w / (t / SECOND_RADIATION_CONSTANT))))
    else if w / (t / SECOND_RADIATION_CONSTANT) ≤ 0.01 then
      0.5 * (w / (t / SECOND_RADIATION_CONSTANT)) * w
    else w) = _
  rw [hx]
  by_cases h10 : w * SECOND_RADIATION_CONSTANT / t ≤ 10
  · rw [if_pos h10, if_pos h10, radiation_term_spec, mul_div_assoc,
      exp_ratio_eq_tanh]
    have harg : w * SECOND_RADIATION_CONSTANT / t / 2 =
        SECOND_RADIATION_CONSTANT * w / (2 * t) := by
      field_simp
      ring
    rw [harg]
  · have h001 : ¬w * SECOND_RADIATION_CONSTANT / t ≤ 0.01 := by
      intro hcon
      exact h10 (le_trans hcon (by norm_num))
    rw [if_neg h10, if_neg h10, if_neg h001]

/-- Witness for C4 at wavenumber 0 and temperature 1. -/
theorem radiation_term_characterization_witness :
    radiation_term [0] 1 = [(0 : ℝ)].map fun w =>
      if w * SECOND_RADIATION_CONSTANT / 1 ≤ 10 then radiation_term_spec w 1
      else w :=
  radiation_term_characterization [0] 1 one_pos

/-- C4 counterexample: at wavenumber 2000 and temperature 200 the argument
hc*nu/kT is 14.387752 > 10, radiation_term returns exactly 2000, but the
claimed value 2000*tanh(hc*2000/(2k*200)) is strictly smaller, so
radiation_term does not compute nu*tanh(hc*nu/2kT) for every input. -/
theorem radiation_term_counterexample :
    radiation_term [2000] 200 = [2000] ∧
      radiation_term_spec 2000 200 < 2000 ∧
      radiation_term [2000] 200 ≠ [radiation_term_spec 2000 200] := by
  have h1 : radiation_term [2000] 200 = [2000] := by
    rw [radiation_term]
    show [if (2000 : ℝ) / (200 / SECOND_RADIATION_CONSTANT) ≤ 10 then
        2000 * (1 - Real.exp (-((2000 : ℝ) / (200 / SECOND_RADIATION_CONSTANT)))) /
          (1 + Real.exp (-((2000 : ℝ) / (200 / SECOND_RADIATION_CONSTANT))))
      else if (2000 : ℝ) / (200 / SECOND_RADIATION_CONSTANT) ≤ 0.01 then
        0.5 * ((2000 : ℝ) / (200 / SECOND_RADIATION_CONSTANT)) * 2000
      else 2000] = [2000]
    rw [if_neg (by norm_num [SECOND_RADIATION_CONSTANT]),
      if_neg (by norm_num [SECOND_RADIATION_CONSTANT])]
  have h2 : radiation_term_spec 2000 200 < 2000 := by
    rw [radiation_term_spec]
    calc (2000 : ℝ) * Real.tanh (SECOND_RADIATION_CONSTANT * 2000 / (2 * 200)) <
        2000 * 1 := by
          exact mul_lt_mul_of_pos_left (tanh_lt_one_of_real _) (by norm_num)
      _ = 2000 := mul_one 2000
  refine ⟨h1, h2, ?_⟩
  rw [h1]
  intro hcon
  have := (List.cons.injEq _ _ _ _).mp hcon
  exact absurd this.1.symm (ne_of_lt h2)

theorem doppler_broadened_halfwidth_eq_spec (t mass ν : ℝ) (ht : 0 ≤ t)
    (hm : 0 < mass) : doppler_broadened_halfwidth t mass ν =
      doppler_halfwidth_spec t mass ν := by
  have hb : (0 : ℝ) < boltzmann := by norm_num [boltzmann]
  have havog : (0 : ℝ) < avogadro := by norm_num [avogadro]
  have hc : (0 : ℝ) ≤ light_speed := by norm_num [light_speed]
  have hA : (0 : ℝ) ≤ 2 * boltzmann * t / (mass / avogadro) :=
    div_nonneg (by positivity) (le_of_lt (div_pos hm havog))
  rw [doppler_broadened_halfwidth, doppler_halfwidth_spec, sqrt_log2, ← div_div,
    Real.sqrt_div hA, Real.sqrt_mul_self hc]
  have harg : 2 * Real.log 2 * boltzmann * t / (mass / avogadro) =
      Real.log 2 * (2 * boltzmann * t / (mass / avogadro)) := by
    ring
  rw [harg, Real.sqrt_mul (Real.log_nonneg one_le_two)]
  ring

/-- C5 counterexample: for the transition nu0 = 100 with pressure shift
delta_air = 1 at p = 1 atm, t = 296 K and isotopologue mass 18, the Doppler
half-width computed inside line_profile differs from the claimed formula
evaluated at the pressure-shifted center nu0 + delta_air*p = 101: the source
passes the unshifted wavenumber v to doppler_broadened_halfwidth. -/
theorem line_profile_alpha_counterexample :
    line_profile_alpha 296 [18] [1] [100] ≠
      [doppler_halfwidth_spec 296 18
        (pressure_shift_transition_wavenumber 100 1 1)] := by
  have h1 : line_profile_alpha 296 [18] [1] [100] =
      [doppler_broadened_halfwidth 296 18 100] := by
    simp [line_profile_alpha, pyGet]
  have h2 : pressure_shift_transition_wavenumber (100 : ℝ) 1 1 = 101 := by
    rw [pressure_shift_transition_wavenumber]
    norm_num
  rw [h1, h2, doppler_broadened_halfwidth_eq_spec 296 18 100 (by norm_num)
    (by norm_num)]
  intro hcon
  have heq := (List.cons.injEq _ _ _ _).mp hcon
  have hS : 0 < Real.sqrt (2 * Real.log 2 * boltzmann * 296 / ((18 : ℝ) / avogadro)) := by
    apply Real.sqrt_pos.mpr
    have hlog := Real.log_pos one_lt_two
    have hb : (0 : ℝ) < boltzmann := by norm_num [boltzmann]
    have havog : (0 : ℝ) < avogadro := by norm_num [avogadro]
    apply div_pos (by positivity) (by positivity)
  have hc : (light_speed : ℝ) ≠ 0 := by norm_num [light_speed]
  have heq2 := heq.1
  rw [doppler_halfwidth_spec, doppler_halfwidth_spec] at heq2
  have h3 := congrArg (fun z => z * light_speed) heq2
  simp only [div_mul_cancel₀ _ hc] at h3
  have hne : (100 : ℝ) *
      Real.sqrt (2 * Real.log 2 * boltzmann * 296 / ((18 : ℝ) / avogadro)) ≠
      101 * Real.sqrt (2 * Real.log 2 * boltzmann * 296 / ((18 : ℝ) / avogadro)) := by
    intro hcon2
    nlinarith [hS]
  exact hne h3

/-- C5 (amended): the Doppler half-width used by line_profile equals the
spec formula nu*sqrt(2*ln2*k*T/(m/NA))/c evaluated at the UNSHIFTED
transition wavenumber, with m the isotopologue mass selected by
isotopologue_id; the pressure-shifted center does not enter. -/
theorem line_profile_alpha_unshifted (t : ℝ) (mass : List ℝ) (iso : List ℕ)
    (v : List ℝ) (ht : 0 ≤ t)
    (hm : ∀ i ∈ iso, 0 < (pyGet mass ((i : Int) - 1)).getD 0) :
    line_profile_alpha t mass iso v = List.zipWith (fun (isoi : ℕ) vi =>
      doppler_halfwidth_spec t ((pyGet mass ((isoi : Int) - 1)).getD 0) vi)
        iso v := by
  rw [line_profile_alpha]
  induction iso generalizing v with
  | nil => simp
  | cons i iso ih =>
    cases v with
    | nil => simp
    | cons vi vrest =>
      simp only [List.zipWith]
      rw [doppler_broadened_halfwidth_eq_spec _ _ _ ht
        (hm i (List.mem_cons_self i iso))]
      rw [ih vrest (fun j hj => hm j (List.mem_cons_of_mem i hj))]

/-- Witness for C5 at a single transition with mass table [1]. -/
theorem line_profile_alpha_unshifted_witness :
    line_profile_alpha 1 [1] [1] [5] = List.zipWith (fun (isoi : ℕ) vi =>
      doppler_halfwidth_spec 1 ((pyGet [(1 : ℝ)] ((isoi : Int) - 1)).getD 0) vi)
        [1] [5] :=
  line_profile_alpha_unshifted 1 [1] [1] [5] zero_le_one (by
    intro i hi
    simp only [List.mem_singleton] at hi
    subst hi
    simp [pyGet])

/-- C7: for a single transition, doubling the strength exactly doubles every
entry of any brute_force output array, for every grid, transition position,
halfwidths, pedestal setting and cut-off: whenever the engine returns an
array at all (with the pedestal branch this never happens, so the statement
is vacuous there), the windowed accumulation is a homogeneous linear
function of the line strength. -/
theorem brute_force_strength_linear {F : Type*} [LinearOrderedCommRing F]
    (vp : F → F → F → F) (w : List F) (c s γ α : F) (rp : Bool) (co : F)
    (k : List F) (h : brute_force vp w [(c, s, γ, α)] rp co = Except.ok k) :
    brute_force vp w [(c, 2 * s, γ, α)] rp co =
      Except.ok (k.map fun x => 2 * x) := by
  have hmap : bf_add vp w co (List.replicate w.length 0) (c, 2 * s, γ, α) =
      (bf_add vp w co (List.replicate w.length 0) (c, s, γ, α)).map
        (fun x => 2 * x) := by
    apply List.ext_get?
    intro j
    rw [bf_add_zeros_get?, List.get?_eq_getElem?, List.getElem?_map,
      ← List.get?_eq_getElem?, bf_add_zeros_get?]
    by_cases hj : j < w.length
    · simp only [hj, if_true, Option.map_some]
      by_cases h2 : searchsorted_left w (c - co) ≤ j ∧
          j < searchsorted_right w (c + co)
      · simp [h2, mul_assoc]
      · simp [h2]
    · simp [hj]
  cases rp with
  | false =>
    rw [brute_force_singleton, applyLine] at h ⊢
    simp only [Bool.false_eq_true, if_false] at h ⊢
    injection h with hk
    rw [hmap, hk]
  | true =>
    exfalso
    rcases applyLine_pedestal_error vp w co (List.replicate w.length 0)
        (c, s, γ, α) with ⟨e, he⟩
    rw [brute_force_singleton, he] at h
    cases h

/-- Witness for C7 on the grid [0, 1, 2] with the profile 2 - dv. -/
theorem brute_force_strength_linear_witness :
    brute_force (fun dv _ _ => 2 - dv) [(0 : ℤ), 1, 2] [(1, 2 * 1, 0, 0)] false 1 =
      Except.ok (([1, 2, 1] : List ℤ).map fun x => 2 * x) :=
  brute_force_strength_linear (fun dv _ _ => 2 - dv) [(0 : ℤ), 1, 2] 1 1 0 0
    false 1 [1, 2, 1] (by decide)

/-- C3 counterexample: two transitions on the grid [0, 1, 2] with profile
2 - dv and cut-off 1.  The claim's per-line pedestal rule predicts the
output [0, 1, 1], but the source's pedestal branch calls min — shadowed by
numpy.min since `from numpy import min` — on two scalars, which treats the
second scalar as an axis argument and raises a TypeError: the run returns
no array at all, in particular not the claimed one. -/
theorem brute_force_pedestal_not_per_line :
    brute_force (fun dv _ _ => 2 - dv) [(0 : ℤ), 1, 2] [(1, 1, 0, 0), (2, 1, 0, 0)]
        true 1 =
      Except.error "TypeError: numpy min takes the second scalar as its axis" ∧
      brute_force_spec (fun dv _ _ => 2 - dv) [(0 : ℤ), 1, 2]
        [(1, 1, 0, 0), (2, 1, 0, 0)] true 1 = [0, 1, 1] ∧
      brute_force (fun dv _ _ => 2 - dv) [(0 : ℤ), 1, 2] [(1, 1, 0, 0), (2, 1, 0, 0)]
          true 1 ≠
        Except.ok (brute_force_spec (fun dv _ _ => 2 - dv) [(0 : ℤ), 1, 2]
          [(1, 1, 0, 0), (2, 1, 0, 0)] true 1) := by
  refine ⟨by decide, by decide, by decide⟩

/-- C3 (amended): with remove_pedestal enabled and at least one transition,
brute_force never subtracts any pedestal and never returns an array: after
adding the first line's windowed contribution and reading the accumulated
output at the window edge indices, it calls min — shadowed by numpy.min —
on the two scalar edge values, which treats the second scalar as an axis
argument and raises a TypeError. -/
theorem brute_force_pedestal_always_raises {F : Type*} [LinearOrderedCommRing F]
    (vp : F → F → F → F) (w : List F) (line : BruteForceLine F)
    (lines : List (BruteForceLine F)) (co : F) :
    ∃ e, brute_force vp w (line :: lines) true co = Except.error e := by
  rcases applyLine_pedestal_error vp w co (List.replicate w.length 0) line with
    ⟨e, he⟩
  refine ⟨e, ?_⟩
  rw [brute_force, List.foldlM_cons, he]
  rfl

/-- C2: for a single transition, the line engine run with pedestal removal
disabled (the only setting under which it returns an array, and the default
of line_profile) succeeds and its output is exactly zero at every grid point
strictly outside the window of half-width cut_off around the pressure-shifted
line center v + d_air*p, for every strictly increasing grid, temperature,
pressure, mixing ratio, partition function and Faddeeva evaluation. -/
theorem line_profile_windowing (wofzRe : ℝ → ℝ → ℝ) (q : ℝ → ℕ → ℝ)
    (v s en d_air n_air n_self gamma_air gamma_self : ℝ) (iso : ℕ)
    (mass : List ℝ) (t p vmr cut_off : ℝ) (grid : List ℝ)
    (hsort : grid.Pairwise (· < ·)) :
    ∃ k, line_profile wofzRe [v] [s] q [iso] [en] [d_air] [n_air] [n_self]
        [gamma_air] [gamma_self] mass t p vmr grid cut_off false = Except.ok k ∧
      ∀ (j : ℕ) (hj : j < grid.length),
        (grid[j] < v + d_air * p - cut_off ∨ v + d_air * p + cut_off < grid[j]) →
          k.getD j 0 = 0 := by
  rw [line_profile]
  rw [show zip4 (line_profile_center [v] [d_air] p)
      (line_profile_strength q [s] [iso] [en] [v] t)
      (line_profile_gamma p vmr t [n_air] [n_self] [gamma_air] [gamma_self])
      (line_profile_alpha t mass [iso] [v]) =
      [(v + d_air * p, s / temperature_correct_line_strength q t iso en v,
        pressure_broadened_halfwidth p (p * vmr) t n_air n_self gamma_air
          gamma_self,
        doppler_broadened_halfwidth t ((pyGet mass ((iso : Int) - 1)).getD 0) v)]
    from rfl]
  rw [brute_force_single_eval]
  refine ⟨_, rfl, ?_⟩
  intro j hj houtside
  have hout2 : ¬(searchsorted_left grid (v + d_air * p - cut_off) ≤ j ∧
      j < searchsorted_right grid (v + d_air * p + cut_off)) := by
    rcases houtside with hlo | hhi
    · intro hcon
      have := lt_searchsorted_left grid hsort j hj _ hlo
      omega
    · intro hcon
      have := searchsorted_right_le_of_lt grid hsort j hj _ hhi
      omega
  rw [List.getD_eq_getElem?_getD, List.getElem?_map, ← List.get?_eq_getElem?,
    range_map_get?]
  simp only [hj, if_true, Option.map_some, Option.getD_some]
  rw [if_neg hout2]
  simp

/-- Witness for C2 on the one-point grid [0] with all parameters zero. -/
theorem line_profile_windowing_witness :
    ∃ k, line_profile (fun _ _ => 0) [0] [0] (fun _ _ => 0) [1] [0] [0] [0]
        [0] [0] [0] [0] 0 0 0 [0] 0 false = Except.ok k ∧
      ∀ (j : ℕ) (hj : j < [(0 : ℝ)].length),
        ([(0 : ℝ)][j] < 0 + 0 * 0 - 0 ∨ 0 + 0 * 0 + 0 < [(0 : ℝ)][j]) →
          k.getD j 0 = 0 :=
  line_profile_windowing (fun _ _ => 0) (fun _ _ => 0) 0 0 0 0 0 0 0 0 1 [0]
    0 0 0 0 [0] (by simp)

theorem brute_force_no_pedestal_total {F : Type*} [LinearOrderedCommRing F]
    (vp : F → F → F → F) (w : List F) (co : F) :
    ∀ (lines : List (BruteForceLine F)) (k0 : List F),
      ∃ k, lines.foldlM (applyLine vp w false co) k0 = Except.ok k := by
  intro lines
  induction lines with
  | nil => intro k0; exact ⟨k0, rfl⟩
  | cons l ls ih =>
    intro k0
    rcases ih (bf_add vp w co k0 l) with ⟨k, hk⟩
    refine ⟨k, ?_⟩
    show applyLine vp w false co k0 l >>= _ = _
    rw [applyLine]
    simp only [Bool.false_eq_true, if_false]
    simpa using hk

/-- C10: with remove_pedestal disabled brute_force always succeeds and a
transition whose window misses the grid entirely leaves the output unchanged;
with remove_pedestal enabled, a window entirely above the grid makes the
pedestal read k[left[i]] out of bounds (an IndexError), while a window
entirely below the grid gives right = 0, so the pedestal read
k[right[i] - 1] = k[-1] wraps around to the LAST element of the output array
instead of the window's right edge; both edge reads then succeed and the
call dies in the shadowed numpy min with a TypeError, not with an
IndexError. -/
theorem brute_force_out_of_window_behavior {F : Type*} [LinearOrderedCommRing F]
    (vp : F → F → F → F) (w : List F) (lines : List (BruteForceLine F))
    (c s γ α co : F) (hco : 0 ≤ co) (hne : w ≠ []) :
    (∃ k, brute_force vp w lines false co = Except.ok k) ∧
      (((∀ x ∈ w, x < c - co) ∨ (∀ x ∈ w, c + co < x)) →
        ∀ k, applyLine vp w false co k (c, s, γ, α) = Except.ok k) ∧
      ((∀ x ∈ w, x < c - co) →
        brute_force vp w [(c, s, γ, α)] true co =
          Except.error "IndexError at k[left[i]]") ∧
      ((∀ x ∈ w, c + co < x) →
        searchsorted_right w (c + co) = 0 ∧
          pyGet (List.replicate w.length (0 : F))
              ((searchsorted_right w (c + co) : Int) - 1) =
            (List.replicate w.length (0 : F)).get? (w.length - 1) ∧
          brute_force vp w [(c, s, γ, α)] true co =
            Except.error
              "TypeError: numpy min takes the second scalar as its axis") := by
  have hn : 0 < w.length := List.length_pos.mpr hne
  refine ⟨brute_force_no_pedestal_total vp w co lines _, ?_, ?_, ?_⟩
  · intro hout k
    have hempty : searchsorted_right w (c + co) ≤ searchsorted_left w (c - co) := by
      rcases hout with habove | hbelow
      · have hl : searchsorted_left w (c - co) = w.length := by
          rw [searchsorted_left, List.countP_eq_length]
          intro x hx
          simpa using habove x hx
        rw [hl]
        exact searchsorted_right_le_length w _
      · have hr : searchsorted_right w (c + co) = 0 := by
          rw [searchsorted_right, List.countP_eq_zero]
          intro x hx
          simpa using not_le.mpr (hbelow x hx)
        rw [hr]
        exact Nat.zero_le _
    rw [applyLine]
    simp only [Bool.false_eq_true, if_false]
    congr 1
    exact sliceMod_empty _ _ hempty
  · intro habove
    have hl : searchsorted_left w (c - co) = w.length := by
      rw [searchsorted_left, List.countP_eq_length]
      intro x hx
      simpa using habove x hx
    rw [brute_force_singleton, applyLine]
    have hnone : (bf_add vp w co (List.replicate w.length 0)
        (c, s, γ, α)).get? (searchsorted_left w (c - co)) = none := by
      rw [List.get?_eq_getElem?, List.getElem?_eq_none]
      rw [bf_add_length, List.length_replicate, hl]
    simp only [if_true, hnone]
  · intro hbelow
    have hr : searchsorted_right w (c + co) = 0 := by
      rw [searchsorted_right, List.countP_eq_zero]
      intro x hx
      simpa using not_le.mpr (hbelow x hx)
    have hl0 : searchsorted_left w (c - co) = 0 := by
      rw [searchsorted_left, List.countP_eq_zero]
      intro x hx
      have := hbelow x hx
      simp only [decide_eq_true_eq]
      intro hcon
      have : x < c + co := lt_of_lt_of_le hcon (by linarith)
      linarith [hbelow x hx]
    have hk1 : bf_add vp w co (List.replicate w.length 0) (c, s, γ, α) =
        List.replicate w.length 0 := by
      apply List.ext_get?
      intro j
      rw [bf_add_zeros_get?, replicate_get?]
      by_cases hj : j < w.length
      · simp only [hj, if_true]
        have : ¬(searchsorted_left w (c - co) ≤ j ∧
            j < searchsorted_right w (c + co)) := by
          rw [hr]
          omega
        simp [this]
      · simp [hj]
    have hrepne : (List.replicate w.length (0 : F)) ≠ [] := by
      simp only [ne_eq, List.replicate_eq_nil_iff]
      omega
    have hb : pyGet (List.replicate w.length (0 : F))
        ((searchsorted_right w (c + co) : Int) - 1) =
        (List.replicate w.length (0 : F)).get? (w.length - 1) := by
      rw [hr, show ((0 : ℕ) : Int) - 1 = -1 by norm_num,
        pyGet_neg_one _ hrepne, List.length_replicate]
    refine ⟨hr, hb, ?_⟩
    rw [brute_force_singleton, applyLine]
    have ha : (bf_add vp w co (List.replicate w.length 0)
        (c, s, γ, α)).get? (searchsorted_left w (c - co)) = some 0 := by
      rw [hk1, hl0, replicate_get?]
      simp [hn]
    have hb2 : pyGet (bf_add vp w co (List.replicate w.length 0) (c, s, γ, α))
        ((searchsorted_right w (c + co) : Int) - 1) = some 0 := by
      rw [hk1, hb, replicate_get?]
      simp only [show w.length - 1 < w.length from by omega, if_true]
    simp only [if_true, ha, hb2]

/-- Witness for C10 on the grid [0, 1] with a line centered at -10. -/
theorem brute_force_out_of_window_behavior_witness :
    (∃ k, brute_force (fun _ _ _ => 1) [(0 : ℤ), 1] [(5, 1, 0, 0)] false 1 =
        Except.ok k) ∧
      (((∀ x ∈ [(0 : ℤ), 1], x < -10 - 1) ∨ (∀ x ∈ [(0 : ℤ), 1], -10 + 1 < x)) →
        ∀ k, applyLine (fun _ _ _ => 1) [(0 : ℤ), 1] false 1 k (-10, 1, 0, 0) =
          Except.ok k) ∧
      ((∀ x ∈ [(0 : ℤ), 1], x < -10 - 1) →
        brute_force (fun _ _ _ => 1) [(0 : ℤ), 1] [(-10, 1, 0, 0)] true 1 =
          Except.error "IndexError at k[left[i]]") ∧
      ((∀ x ∈ [(0 : ℤ), 1], -10 + 1 < x) →
        searchsorted_right [(0 : ℤ), 1] (-10 + 1) = 0 ∧
          pyGet (List.replicate ([(0 : ℤ), 1]).length (0 : ℤ))
              ((searchsorted_right [(0 : ℤ), 1] (-10 + 1) : Int) - 1) =
            (List.replicate ([(0 : ℤ), 1]).length (0 : ℤ)).get?
              (([(0 : ℤ), 1]).length - 1) ∧
          brute_force (fun _ _ _ => 1) [(0 : ℤ), 1] [(-10, 1, 0, 0)] true 1 =
            Except.error
              "TypeError: numpy min takes the second scalar as its axis") :=
  brute_force_out_of_window_behavior (fun _ _ _ => 1) [(0 : ℤ), 1] [(5, 1, 0, 0)]
    (-10) 1 0 0 1 (by decide) (by decide)

theorem brute_force_step_frame {F : Type*} [LinearOrderedCommRing F]
    (vp : F → F → F → F) (rp : Bool) (co : F) (st st2 : BruteForceState F)
    (i : ℕ) (h : brute_force_step vp rp co st i = Except.ok st2) :
    st2.wavenumber = st.wavenumber ∧ st2.center = st.center ∧
      st2.strength = st.strength ∧ st2.gamma = st.gamma ∧
      st2.alpha = st.alpha ∧
      applyLine vp st.wavenumber rp co st.k (st.center.getD i 0,
        st.strength.getD i 0, st.gamma.getD i 0, st.alpha.getD i 0) =
        Except.ok st2.k := by
  rw [brute_force_step] at h
  cases happly : applyLine vp st.wavenumber rp co st.k (st.center.getD i 0,
      st.strength.getD i 0, st.gamma.getD i 0, st.alpha.getD i 0) with
  | error e =>
    rw [happly] at h
    cases h
  | ok k1 =>
    rw [happly] at h
    injection h with h2
    subst h2
    exact ⟨rfl, rfl, rfl, rfl, rfl, rfl⟩

theorem brute_force_fold_frame {F : Type*} [LinearOrderedCommRing F]
    (vp : F → F → F → F) (rp : Bool) (co : F) :
    ∀ (idxs : List ℕ) (st st2 : BruteForceState F),
      idxs.foldlM (brute_force_step vp rp co) st = Except.ok st2 →
      (st2.wavenumber = st.wavenumber ∧ st2.center = st.center ∧
        st2.strength = st.strength ∧ st2.gamma = st.gamma ∧
        st2.alpha = st.alpha) ∧
      idxs.foldlM (fun k i => applyLine vp st.wavenumber rp co k
          (st.center.getD i 0, st.strength.getD i 0, st.gamma.getD i 0,
            st.alpha.getD i 0)) st.k = Except.ok st2.k := by
  intro idxs
  induction idxs with
  | nil =>
    intro st st2 h
    injection h with h2
    subst h2
    exact ⟨⟨rfl, rfl, rfl, rfl, rfl⟩, rfl⟩
  | cons i idxs ih =>
    intro st st2 h
    rw [List.foldlM_cons] at h
    cases hstep : brute_force_step vp rp co st i with
    | error e =>
      rw [hstep] at h
      cases h
    | ok st1 =>
      rw [hstep] at h
      have h2 : idxs.foldlM (brute_force_step vp rp co) st1 = Except.ok st2 := h
      rcases brute_force_step_frame vp rp co st st1 i hstep with
        ⟨hw, hc, hs, hg, ha, happly⟩
      rcases ih st1 st2 h2 with ⟨⟨hw2, hc2, hs2, hg2, ha2⟩, hfold⟩
      rw [hw] at hw2
      rw [hc] at hc2
      rw [hs] at hs2
      rw [hg] at hg2
      rw [ha] at ha2
      rw [hw, hc, hs, hg, ha] at hfold
      refine ⟨⟨hw2, hc2, hs2, hg2, ha2⟩, ?_⟩
      rw [List.foldlM_cons, happly]
      exact hfold

theorem foldlM_range_zip4 {F : Type*} [LinearOrderedCommRing F]
    (vp : F → F → F → F) (w : List F) (rp : Bool) (co : F) :
    ∀ (cs ss gs as init : List F),
      ss.length = cs.length → gs.length = cs.length → as.length = cs.length →
      (List.range cs.length).foldlM (fun k i => applyLine vp w rp co k
          (cs.getD i 0, ss.getD i 0, gs.getD i 0, as.getD i 0)) init =
        (zip4 cs ss gs as).foldlM (applyLine vp w rp co) init := by
  intro cs
  induction cs with
  | nil =>
    intro ss gs as init h1 h2 h3
    rfl
  | cons c cs ihc =>
    intro ss gs as init h1 h2 h3
    cases ss with
    | nil => simp at h1
    | cons s ss =>
      cases gs with
      | nil => simp at h2
      | cons g gs =>
        cases as with
        | nil => simp at h3
        | cons a as =>
          show (List.range (cs.length + 1)).foldlM _ init = _
          rw [List.range_succ_eq_map, List.foldlM_cons]
          have hz : zip4 (c :: cs) (s :: ss) (g :: gs) (a :: as) =
              (c, s, g, a) :: zip4 cs ss gs as := rfl
          rw [hz, List.foldlM_cons]
          simp only [List.getD_cons_zero]
          apply bind_congr
          intro k1
          rw [List.foldlM_map]
          simp only [Nat.succ_eq_add_one, List.getD_cons_succ]
          exact ihc ss gs as k1 (by simpa using h1) (by simpa using h2)
            (by simpa using h3)

/-- C9: running the brute_force loop as a state machine whose iterations read
the wavenumber grid and the transition parameter arrays and assign only the
output field k, every input array is exactly unchanged after the run, and
the final k is precisely the functional brute_force value on the zipped
transition arrays starting from a freshly allocated zero array: the engine
never mutates its inputs. -/
theorem brute_force_run_no_mutation {F : Type*} [LinearOrderedCommRing F]
    (vp : F → F → F → F) (rp : Bool) (co : F) (st st2 : BruteForceState F)
    (hlen1 : st.strength.length = st.center.length)
    (hlen2 : st.gamma.length = st.center.length)
    (hlen3 : st.alpha.length = st.center.length)
    (h : brute_force_run vp rp co st = Except.ok st2) :
    st2.wavenumber = st.wavenumber ∧ st2.center = st.center ∧
      st2.strength = st.strength ∧ st2.gamma = st.gamma ∧
      st2.alpha = st.alpha ∧
      brute_force vp st.wavenumber (zip4 st.center st.strength st.gamma st.alpha)
        rp co = Except.ok st2.k := by
  rw [brute_force_run] at h
  rcases brute_force_fold_frame vp rp co _ _ _ h with
    ⟨⟨hw, hc, hs, hg, ha⟩, hfold⟩
  refine ⟨hw, hc, hs, hg, ha, ?_⟩
  rw [brute_force]
  rw [← foldlM_range_zip4 vp st.wavenumber rp co st.center st.strength st.gamma
    st.alpha _ hlen1 hlen2 hlen3]
  exact hfold

/-- Witness for C9 on a two-line state over the grid [0, 1, 2]. -/
theorem brute_force_run_no_mutation_witness :
    (BruteForceState.mk [(0 : ℤ), 1, 2] [1, 2] [1, 1] [0, 0] [0, 0] [7, 7, 7]
        : BruteForceState ℤ).wavenumber = [0, 1, 2] ∧
      ([1, 2] : List ℤ) = [1, 2] ∧ ([1, 1] : List ℤ) = [1, 1] ∧
      ([0, 0] : List ℤ) = [0, 0] ∧ ([0, 0] : List ℤ) = [0, 0] ∧
      brute_force (fun dv _ _ => 2 - dv) [(0 : ℤ), 1, 2]
        (zip4 [1, 2] [1, 1] [0, 0] [0, 0]) false 1 = Except.ok [1, 3, 3] := by
  have h := brute_force_run_no_mutation (fun dv _ _ => 2 - dv) false 1
    (BruteForceState.mk [(0 : ℤ), 1, 2] [1, 2] [1, 1] [0, 0] [0, 0] [7, 7, 7])
    (BruteForceState.mk [(0 : ℤ), 1, 2] [1, 2] [1, 1] [0, 0] [0, 0] [1, 3, 3])
    rfl rfl rfl (by decide)
  exact h
